import Mathlib

/-!
Verification of the spreadsheet-to-document converter core
(`scripts/python/converter_core.py`).

The development shallowly embeds the data model and the algorithms of the
converter: cell and row records, the merge-range owner index, the row
classifier, the block-accumulation fold of `HtmlConverter.convert`, the table
reconstruction of `_create_table_element`, and the column-identifier
derivation of `SqlConverter.convert`.  Cell values are `Option String`
(`none` stands for Python `None`; a numeric value stands by its rendered
string).  All definitions are executable.
-/

set_option maxRecDepth 10000

/-- The classification tags `_classify_row` can return
('title', 'footer', 'section_header', 'table_row', 'paragraph_line',
'empty'). -/
inductive Tag where
  | title
  | footer
  | sectionHeader
  | tableRow
  | paragraphLine
  | empty
deriving DecidableEq, Repr

/-- Strip leading and trailing whitespace from a character list. -/
def trimList (cs : List Char) : List Char :=
  ((cs.dropWhile Char.isWhitespace).reverse.dropWhile Char.isWhitespace).reverse

/-- Python's `str.strip()`. -/
def strTrim (s : String) : String := ⟨trimList s.data⟩

/-- The length of a string in characters (`len(s)`). -/
def strLen (s : String) : Nat := s.data.length

/-- Join strings with a separator, character-list level. -/
def joinSepAux (sep : List Char) : List (List Char) → List Char
  | [] => []
  | [x] => x
  | x :: y :: rest => x ++ sep ++ joinSepAux sep (y :: rest)

/-- Python's `sep.join(xs)` on strings. -/
def joinStrings (sep : String) (xs : List String) : String :=
  ⟨joinSepAux sep.data (xs.map (·.data))⟩

/-- One cell of the grid, as `CellData` materialises it: coordinates, the
resolved value, the style flags the classifier and the table builder read,
and the merge information (`is_merged`, `is_top_left_merged`,
`merge_range_info[1].min_col/max_col`, `colspan`, `rowspan`). -/
structure CellData where
  row : Nat
  column : Nat
  value : Option String
  bold : Bool
  hasBorder : Bool
  isMerged : Bool
  isTopLeftMerged : Bool
  mergeMinCol : Nat
  mergeMaxCol : Nat
  colspan : Nat
  rowspan : Nat
deriving DecidableEq, Repr

/-- `CellData.is_empty`: the value is `None` or a whitespace-only string. -/
def cellIsEmpty (c : CellData) : Bool :=
  match c.value with
  | none => true
  | some s => (trimList s.data).isEmpty

/-- `str(cell.value).strip()` for a cell whose value is not `None`. -/
def cellText (c : CellData) : String :=
  strTrim (c.value.getD "")

/-- One row of the grid (`RowData`): its 1-based index and its cells in
column order. -/
structure RowData where
  rowIdx : Nat
  cells : List CellData
deriving DecidableEq, Repr

/-- `RowData.get_non_empty_cells(ignore_merged_covered)`: the non-empty
cells, skipping merge-covered non-owner cells when `igCov` is true. -/
def nonEmptyCells (r : RowData) (igCov : Bool) : List CellData :=
  r.cells.filter fun c =>
    !(igCov && c.isMerged && !c.isTopLeftMerged) && !cellIsEmpty c

/-- `RowData.is_empty(ignore_merged_covered)`. -/
def rowIsEmpty (r : RowData) (igCov : Bool) : Bool :=
  (nonEmptyCells r igCov).isEmpty

/-- `RowData.get_last_data_column_index`: the highest column covered by a
non-empty cell, counting the colspan of a merge owner. -/
def lastDataColumnIndex (r : RowData) : Nat :=
  r.cells.foldl
    (fun last c =>
      if !cellIsEmpty c then
        max last (c.column + (if c.isTopLeftMerged then c.colspan - 1 else 0))
      else last)
    0

/-- Sheet-level context the classifier reads: `len(self.sheet_data.rows)`
and `sheet.min_column`. -/
structure Ctx where
  totalRows : Nat
  minCol : Nat
deriving DecidableEq, Repr

/-! String helpers mirroring the Python operations used by the classifier.
They work on the character list of the string (`String.data`), keeping every
definition reducible for the kernel. -/

/-- Lower-case a string character by character (`str.lower()` on the ASCII
range the classifier's keyword lists use). -/
def lowerStr (s : String) : String := ⟨s.data.map Char.toLower⟩

/-- Upper-case a string character by character (`str.upper()` on the ASCII
range the section-header vocabulary uses). -/
def upperStr (s : String) : String := ⟨s.data.map Char.toUpper⟩

/-- Whether `needle` occurs at the start of `hay` (character lists). -/
def matchesAt : List Char → List Char → Bool
  | [], _ => true
  | _ :: _, [] => false
  | n :: ns, h :: hs => n = h && matchesAt ns hs

/-- Whether `needle` occurs anywhere in `hay`: Python's `needle in hay`. -/
def listHasSub (needle : List Char) : List Char → Bool
  | [] => needle.isEmpty
  | h :: hs => matchesAt needle (h :: hs) || listHasSub needle hs

/-- Python's `sub in s` on strings. -/
def hasSub (needle hay : String) : Bool :=
  listHasSub needle.data hay.data

/-- Count the maximal non-whitespace runs of a character list; the flag
records whether the previous character was inside a word. -/
def countWordsAux : Bool → List Char → Nat
  | _, [] => 0
  | inW, c :: rest =>
    if c.isWhitespace then countWordsAux false rest
    else (if inW then 0 else 1) + countWordsAux true rest

/-- `len(s.split())`: the number of maximal non-whitespace runs. -/
def wordCount (s : String) : Nat := countWordsAux false s.data

/-! The voltage pattern of `_is_like_title`:
`\d+(\.\d+)?\s*/\s*\d+(\.\d+)?\s*k?v` searched case-insensitively.
The matcher consumes greedily; each following literal is disjoint from the
greedy class, so greedy matching is equivalent to the regex's backtracking. -/

/-- Consume one-or-more ASCII digits; `none` when the first char is not a
digit. -/
def eatDigits : List Char → Option (List Char)
  | c :: rest =>
    if c.isDigit then some ((c :: rest).dropWhile Char.isDigit) else none
  | [] => none

/-- Consume the optional `(\.\d+)?` group. -/
def eatOptFrac (cs : List Char) : List Char :=
  match cs with
  | '.' :: rest =>
    match eatDigits rest with
    | some out => out
    | none => cs
  | _ => cs

/-- Whether `\d+(\.\d+)?\s*/\s*\d+(\.\d+)?\s*k?v` matches at the head of an
already lower-cased character list. -/
def voltMatchAt (cs : List Char) : Bool :=
  match eatDigits cs with
  | none => false
  | some cs1 =>
    let cs2 := (eatOptFrac cs1).dropWhile Char.isWhitespace
    match cs2 with
    | '/' :: cs3 =>
      match eatDigits (cs3.dropWhile Char.isWhitespace) with
      | none => false
      | some cs4 =>
        let cs5 := (eatOptFrac cs4).dropWhile Char.isWhitespace
        match cs5 with
        | 'k' :: 'v' :: _ => true
        | 'v' :: _ => true
        | _ => false
    | _ => false

/-- `re.search` of the voltage pattern, case-insensitive: some position of
the lower-cased text matches. -/
def voltSearchAux : List Char → Bool
  | [] => voltMatchAt []
  | c :: rest => voltMatchAt (c :: rest) || voltSearchAux rest

/-- Whether the voltage pattern occurs anywhere in `s`, ignoring case. -/
def voltSearch (s : String) : Bool :=
  voltSearchAux (lowerStr s).data

/-! The keyword lists of `HtmlConverter`. -/

/-- `SECTION_HEADERS_UPPER`. -/
def SECTION_HEADERS_UPPER : List String :=
  ["APPLICATION", "STANDARDS", "CHARACTERISTICS", "CONSTRUCTION",
   "DIMENSIONS", "ELECTRICAL CHARACTERISTICS", "CONDUCTORS",
   "DE-RATING", "CURRENT CARRYING", "VOLTAGE DROP", "FACTORS", "FEATURES",
   "TECHNICAL DATA"]

/-- `DESCRIPTIVE_KEYWORDS_LOWER`. -/
def DESCRIPTIVE_KEYWORDS_LOWER : List String :=
  ["for use in", "according to", "conductor operates", "note",
   "where a conductor", "fixed wiring", "power networks"]

/-- `FOOTER_KEYWORDS_LOWER`. -/
def FOOTER_KEYWORDS_LOWER : List String :=
  ["information contained", "guidance only", "subject to change",
   "liability", "tolerances", "manufacturing tolerances"]

/-- `HtmlConverter._is_like_title(row_data, first_text)`.  Note the source
reads `row_data.cells[0]` (the row's first cell, which may be empty), while
`first_text` is the text of the first non-empty cell. -/
def isLikeTitle (r : RowData) (firstText : String) : Bool :=
  match r.cells with
  | [] => false
  | cell :: _ =>
    let isLongAndSpans :=
      decide (strLen firstText > 15) &&
      decide (cell.colspan > max 1 (r.cells.length / 2))
    let hasKeywords :=
      (["cable", "conductor", "wire"].any fun k =>
        hasSub k (lowerStr firstText)) && voltSearch firstText
    let isBasec := hasSub "basec" (lowerStr firstText)
    isLongAndSpans || hasKeywords || isBasec

/-- `HtmlConverter._is_like_section_header(row_data, first_text_upper,
first_text_lower)`. -/
def isLikeSectionHeader (r : RowData) (ftU ftL : String) : Bool :=
  if !(SECTION_HEADERS_UPPER.any fun h => hasSub h ftU) then false
  else if decide (wordCount ftU > 8) || ftU.data.contains '\n' ||
          (DESCRIPTIVE_KEYWORDS_LOWER.any fun k => hasSub k ftL) then false
  else
    match r.cells with
    | [] => false
    | firstCell :: restCells =>
      let spansWide :=
        decide (firstCell.colspan ≥ max 2 (r.cells.length / 2))
      let onlySignificant := restCells.all fun c =>
        let isCovered :=
          firstCell.isMerged && decide (c.row = firstCell.row) &&
          decide (firstCell.mergeMinCol ≤ c.column) &&
          decide (c.column ≤ firstCell.mergeMaxCol)
        isCovered || cellIsEmpty c || decide (strLen (cellText c) ≤ 5)
      spansWide || onlySignificant

/-- `HtmlConverter._is_like_footer(row_data, first_text_lower)`: exactly one
non-empty cell counting merge-covered cells (`ignore_merged_covered=False`),
whose text contains a footer keyword. -/
def isLikeFooter (r : RowData) (ftL : String) : Bool :=
  decide ((nonEmptyCells r false).length = 1) &&
  (FOOTER_KEYWORDS_LOWER.any fun k => hasSub k ftL)

/-- `HtmlConverter._classify_row(row_data, prev_classification)`: the
ordered precedence chain of the row classifier. -/
def classifyRow (ctx : Ctx) (r : RowData) (prevC : Option Tag) : Tag :=
  if rowIsEmpty r true then Tag.empty
  else
    match nonEmptyCells r true with
    | [] => Tag.empty
    | firstCell :: _ =>
      let firstText := cellText firstCell
      let ftL := lowerStr firstText
      let ftU := upperStr firstText
      if decide (r.rowIdx ≤ 3) && decide (prevC = none) &&
         isLikeTitle r firstText then Tag.title
      else if decide ((r.rowIdx : Int) ≥ (ctx.totalRows : Int) - 5) &&
              isLikeFooter r ftL then Tag.footer
      else if decide (firstCell.column = ctx.minCol) &&
              isLikeSectionHeader r ftU ftL then Tag.sectionHeader
      else
        let hasBorders := firstCell.hasBorder
        let isCont :=
          decide (prevC = some Tag.tableRow) ||
          decide (prevC = some Tag.sectionHeader)
        if decide ((nonEmptyCells r true).length > 1) ||
           (decide ((nonEmptyCells r true).length = 1) &&
            decide (firstCell.colspan > 1)) ||
           hasBorders || isCont then
          if decide ((nonEmptyCells r true).length = 1) &&
             decide (firstCell.colspan > 1) &&
             decide (wordCount firstText > 10) &&
             !hasBorders && !isCont then Tag.paragraphLine
          else Tag.tableRow
        else Tag.paragraphLine

/-! The merge-range owner index of `ExcelSheetData._create_merged_cells_map`
and the value resolution of `CellData._get_value`.  A coordinate is a
`(row, column)` pair; `get_column_letter` is a bijection, so the string
coordinates of the source are modelled by the pairs themselves. -/

/-- A coordinate `(row, column)`. -/
abbrev Coord := Nat × Nat

/-- A merge range as openpyxl exposes it: `min_row`, `max_row`, `min_col`,
`max_col`. -/
structure MergeRange where
  minRow : Nat
  maxRow : Nat
  minCol : Nat
  maxCol : Nat
deriving DecidableEq, Repr

/-- Whether a coordinate lies inside a merge range's rectangle. -/
def mrContains (m : MergeRange) (c : Coord) : Prop :=
  m.minRow ≤ c.1 ∧ c.1 ≤ m.maxRow ∧ m.minCol ≤ c.2 ∧ c.2 ≤ m.maxCol

instance (m : MergeRange) (c : Coord) : Decidable (mrContains m c) := by
  unfold mrContains; infer_instance

/-- The top-left coordinate of a merge range. -/
def mrTopLeft (m : MergeRange) : Coord := (m.minRow, m.minCol)

/-- The inner loops of `_create_merged_cells_map` for one range: every
coordinate of the rectangle is (re)assigned `(top_left_coord, merged_range)`,
overwriting earlier entries. -/
def insertRect (f : Coord → Option (Coord × MergeRange)) (m : MergeRange) :
    Coord → Option (Coord × MergeRange) :=
  fun c => if mrContains m c then some (mrTopLeft m, m) else f c

/-- `ExcelSheetData._create_merged_cells_map`: the ranges inserted in list
order into an initially empty dictionary (a later range overwrites). -/
def mergedCellsMap (ranges : List MergeRange) :
    Coord → Option (Coord × MergeRange) :=
  ranges.foldl insertRect (fun _ => none)

/-- `CellData._get_value`: a merged non-owner coordinate resolves to the
value at the range's top-left coordinate, every other coordinate to its own
value.  `sheet` gives each coordinate's stored value. -/
def getValue (sheet : Coord → Option String)
    (m : Coord → Option (Coord × MergeRange)) (c : Coord) : Option String :=
  match m c with
  | some (tl, _) => if tl = c then sheet c else sheet tl
  | none => sheet c

/-- No two ranges of the list cover a common coordinate (the grid invariant
the spec states for merge ranges). -/
def NoOverlap (ranges : List MergeRange) : Prop :=
  ranges.Pairwise fun a b => ∀ c : Coord, ¬(mrContains a c ∧ mrContains b c)

/-! The table reconstruction of `HtmlConverter._create_table_element`. -/

/-- One rendered table cell: whether the element is a `th`, its text and its
spans. -/
structure TrCell where
  isHeaderCell : Bool
  text : String
  colspan : Nat
  rowspan : Nat
deriving DecidableEq, Repr

/-- One rendered table row. -/
abbrev Tr := List TrCell

/-- `idx < 3 and (all_bold or has_complex_merge) or idx >= 3 and all_bold`:
whether a block row qualifies as a header row at scan position `idx`. -/
def isHeaderQual (idx : Nat) (r : RowData) : Bool :=
  let ne := nonEmptyCells r false
  let allBold := ne.all (·.bold)
  let hasComplexMerge :=
    ne.any fun c => decide (c.rowspan > 1) || decide (c.colspan > 1)
  (decide (idx < 3) && (allBold || hasComplexMerge)) ||
  (decide (idx ≥ 3) && allBold)

/-- The header-identification loop: returns the collected header rows and
`potential_header_end_idx`.  A row with no non-empty cell is skipped without
updating the end index; the first disqualifying row stops the scan. -/
def headerScanAux : List RowData → Nat → Nat → List RowData × Nat
  | [], _, lastEnd => ([], lastEnd)
  | r :: rest, idx, lastEnd =>
    if (nonEmptyCells r false).isEmpty then
      headerScanAux rest (idx + 1) lastEnd
    else if isHeaderQual idx r then
      let p := headerScanAux rest (idx + 1) (idx + 1)
      (r :: p.1, p.2)
    else ([], lastEnd)

/-- The maximum occupied column over the rows of one table block. -/
def maxColIndex (rows : List RowData) : Nat :=
  rows.foldl (fun m r => max m (lastDataColumnIndex r)) 0

/-- The coordinates an emitted cell's rowspan registers as covered:
`(row_idx + i, column + j)` for `1 ≤ i < rowspan`, `0 ≤ j < colspan`. -/
def rowspanCoords (rowIdx : Nat) (c : CellData) : List Coord :=
  ((List.range (c.rowspan - 1)).map (· + 1)).flatMap fun i =>
    (List.range c.colspan).map fun j => (rowIdx + i, c.column + j)

/-- The `thead` cell loop for one header row: skip cells beyond the maximum
column, cells covered by an earlier header rowspan and merged non-owner
cells; every emitted cell is a `th`. -/
def theadRowCells (cells : List CellData) (rowIdx maxCol : Nat)
    (cov : List Coord) : Tr × List Coord :=
  match cells with
  | [] => ([], cov)
  | c :: rest =>
    if c.column > maxCol then theadRowCells rest rowIdx maxCol cov
    else if cov.contains (c.row, c.column) then
      theadRowCells rest rowIdx maxCol cov
    else if c.isMerged && !c.isTopLeftMerged then
      theadRowCells rest rowIdx maxCol cov
    else
      let cov1 :=
        if c.rowspan > 1 then cov ++ rowspanCoords rowIdx c else cov
      let p := theadRowCells rest rowIdx maxCol cov1
      (⟨true, cellText c, c.colspan, c.rowspan⟩ :: p.1, p.2)

/-- The `thead` builder: one `tr` per header row, appended only when it has
a `th`; the coverage set threads through all header rows. -/
def buildThead : List RowData → Nat → List Coord → List Tr × List Coord
  | [], _, cov => ([], cov)
  | r :: rs, maxCol, cov =>
    let p := theadRowCells r.cells r.rowIdx maxCol cov
    let q := buildThead rs maxCol p.2
    (if p.1.isEmpty then q.1 else p.1 :: q.1, q.2)

/-- The `tbody` cell loop for one data row: the first emitted cell of the
row is a row-header `th`, the rest are `td`; rowspan coverage registers in
the shared set. -/
def tbodyRowCells (cells : List CellData) (rowIdx maxCol : Nat)
    (cov : List Coord) (isFirstVisible : Bool) : Tr × List Coord :=
  match cells with
  | [] => ([], cov)
  | c :: rest =>
    if c.column > maxCol then tbodyRowCells rest rowIdx maxCol cov isFirstVisible
    else if cov.contains (c.row, c.column) then
      tbodyRowCells rest rowIdx maxCol cov isFirstVisible
    else if c.isMerged && !c.isTopLeftMerged then
      tbodyRowCells rest rowIdx maxCol cov isFirstVisible
    else
      let cov1 :=
        if c.rowspan > 1 then cov ++ rowspanCoords rowIdx c else cov
      let p := tbodyRowCells rest rowIdx maxCol cov1 false
      (⟨isFirstVisible, cellText c, c.colspan, c.rowspan⟩ :: p.1, p.2)

/-- The `tbody` builder: one `tr` per data row, appended only when it has a
cell. -/
def buildTbody : List RowData → Nat → List Coord → List Tr
  | [], _, _ => []
  | r :: rs, maxCol, cov =>
    let p := tbodyRowCells r.cells r.rowIdx maxCol cov true
    let q := buildTbody rs maxCol p.2
    if p.1.isEmpty then q else p.1 :: q

/-- The `thead` and `tbody` rows `_create_table_element` would render for a
block (before the final emptiness check). -/
def tableTrs (rows : List RowData) : List Tr × List Tr :=
  let maxCol := maxColIndex rows
  let sc := headerScanAux rows 0 0
  let hdrs := sc.1
  let dataRows := rows.drop sc.2
  let th := buildThead hdrs maxCol []
  let tb := buildTbody dataRows maxCol th.2
  (th.1, tb)

/-- `HtmlConverter._create_table_element`: `None` for an empty block, a
zero maximum occupied column, or a table without any rendered row. -/
def createTable (rows : List RowData) : Option (List Tr × List Tr) :=
  if rows.isEmpty then none
  else if maxColIndex rows = 0 then none
  else
    let t := tableTrs rows
    if t.1.isEmpty && t.2.isEmpty then none else some t

/-- The number of rendered table rows of a reconstruction result. -/
def trCount (t : Option (List Tr × List Tr)) : Nat :=
  match t with
  | none => 0
  | some p => p.1.length + p.2.length

/-! The column-identifier derivation of `SqlConverter.convert`
(lines 628-632).  In the source the statement `if h is None: continue; s =
re.sub(...); s = re.sub(...)` places both assignments to `s` inside the
`if` body and after `continue`, so they are dead code: for a non-`None`
header the following `if s:` reads the never-assigned local `s` and Python
raises `UnboundLocalError`.  The embedding threads `s` as an
`Option String` (`none` = unbound). -/

/-- The loop `for h in headers_raw` of `SqlConverter.convert` as written:
`none` entries are skipped; a non-`none` entry reads the unbound local `s`
and fails. -/
def headersLoop : List (Option String) → Option String → List String →
    Except String (List String)
  | [], _, acc => Except.ok acc.reverse
  | h :: rest, s, acc =>
    match h with
    | none => headersLoop rest s acc
    | some _ =>
      match s with
      | none => Except.error "UnboundLocalError: s"
      | some sv =>
        headersLoop rest s (if sv ≠ "" then sv :: acc else acc)

/-- The header-identifier derivation as the source executes it. -/
def buildHeaders (headersRaw : List (Option String)) :
    Except String (List String) :=
  headersLoop headersRaw none []

/-- Collapse each maximal whitespace run to a single underscore:
`re.sub(r'\s+', '_', s)`.  The flag records whether the previous character
was whitespace. -/
def collapseWsAux : Bool → List Char → List Char
  | _, [] => []
  | inRun, c :: rest =>
    if c.isWhitespace then
      if inRun then collapseWsAux true rest
      else '_' :: collapseWsAux true rest
    else c :: collapseWsAux false rest

/-- The column-identifier sanitization the dead statements of the source
spell out (and the spec describes): collapse whitespace to underscores,
strip, drop characters outside `[a-zA-Z0-9_]`, lower-case. -/
def sanitizeIdent (s : String) : String :=
  let collapsed : String := ⟨collapseWsAux false s.data⟩
  let stripped := strTrim collapsed
  let kept : String :=
    ⟨stripped.data.filter fun c => c.isAlphanum || c = '_'⟩
  lowerStr kept

/-! The block-accumulation fold of `HtmlConverter.convert`.  The appended
content elements are modelled as abstract blocks; rendering details that do
not affect block structure (CSS classes, the HTML serialisation) are
dropped, the order and identity of the appended elements are kept. -/

/-- One appended content element. -/
inductive Block where
  | table (rows : List RowData)
  | para (text : String)
  | titleB (text : String)
  | sectionB (text : String)
  | footerB (text : String)
  | imageB (path : String)
deriving DecidableEq, Repr

/-- One sheet image as `ExcelSheetData.images` records it: anchor row and
asset path. -/
structure ImgInfo where
  row : Nat
  path : String
deriving DecidableEq, Repr

/-- The whole input of `HtmlConverter`: the parsed rows, the sheet's
minimum column and the extracted images. -/
structure SheetData where
  rows : List RowData
  minCol : Nat
  images : List ImgInfo
deriving DecidableEq, Repr

/-- The classifier context the converter derives from its sheet. -/
def ctxOf (sd : SheetData) : Ctx :=
  { totalRows := sd.rows.length, minCol := sd.minCol }

/-- The mutable loop state of `HtmlConverter.convert`: the open table and
paragraph accumulations, the last non-empty classification, the emitted
elements and the used image paths. -/
structure ConvState where
  curTable : List RowData
  curPara : List String
  last : Option Tag
  out : List Block
  used : List String
deriving DecidableEq, Repr

/-- `HtmlConverter._add_image_tag(row_idx)`: the first image anchored at the
row whose path is not yet used; creating the tag marks the path used. -/
def addImage (imgs : List ImgInfo) (used : List String) (rowIdx : Nat) :
    Option String × List String :=
  match imgs with
  | [] => (none, used)
  | i :: rest =>
    if i.row = rowIdx ∧ i.path ∉ used then (some i.path, i.path :: used)
    else addImage rest used rowIdx

/-- The pre-pass of `convert` over the first five rows: the first image
found becomes the title image (its path already marked used). -/
def findTitleImgAux (imgs : List ImgInfo) :
    List RowData → List String → Option String × List String
  | [], used => (none, used)
  | r :: rs, used =>
    match addImage imgs used r.rowIdx with
    | (some p, used1) => (some p, used1)
    | (none, used1) => findTitleImgAux imgs rs used1

/-- `for row_data in self.sheet_data.rows[:5]: ...`. -/
def findTitleImg (imgs : List ImgInfo) (rows : List RowData)
    (used : List String) : Option String × List String :=
  findTitleImgAux imgs (rows.take 5) used

/-- `HtmlConverter._flush_table`: append the reconstructed table element
when it is not `None`, else append nothing. -/
def flushTableOut (out : List Block) (rows : List RowData) : List Block :=
  if rows.isEmpty then out
  else
    match createTable rows with
    | some _ => out ++ [Block.table rows]
    | none => out

/-- `HtmlConverter._flush_paragraph`: append the joined paragraph when the
stripped text is non-empty. -/
def flushParaOut (out : List Block) (lines : List String) : List Block :=
  if lines.isEmpty then out
  else
    let t := strTrim (joinStrings "\n" lines)
    if t = "" then out else out ++ [Block.para t]

/-- The first non-empty cell of the whole cell list (`next(cell for cell in
row_data.cells if not cell.is_empty())`), used by `_add_title_tag`,
`_add_section_header_tag` and `_add_footer_tag`. -/
def firstNonEmptyAnyCell (r : RowData) : Option CellData :=
  r.cells.find? fun c => !cellIsEmpty c

/-- Append the single-row block of a title/section-header/footer row, when
the row has a non-empty cell. -/
def appendCellBlock (out : List Block) (r : RowData)
    (mk : String → Block) : List Block :=
  match firstNonEmptyAnyCell r with
  | some c => out ++ [mk (cellText c)]
  | none => out

/-- The paragraph line a `paragraph_line` row contributes:
`" ".join(str(c.value) for c in row_data.get_non_empty_cells()).strip()`. -/
def paraLineOf (r : RowData) : String :=
  strTrim (joinStrings " " ((nonEmptyCells r true).map fun c => c.value.getD ""))

/-- One iteration of the `convert` loop, in the source's statement order:
classify, fetch this row's image, run the state transitions, place the
image, handle the classification, update the last classification. -/
def step (ctx : Ctx) (imgs : List ImgInfo) (ti : Option String)
    (s : ConvState) (r : RowData) : ConvState :=
  let c := classifyRow ctx r s.last
  let ia := addImage imgs s.used r.rowIdx
  let img := ia.1
  let used1 := ia.2
  let p1 :=
    if c ≠ Tag.tableRow ∧ s.last = some Tag.tableRow then
      (flushTableOut s.out s.curTable, ([] : List RowData))
    else (s.out, s.curTable)
  let p2 :=
    if c = Tag.tableRow ∧ s.last = some Tag.paragraphLine then
      (flushParaOut p1.1 s.curPara, ([] : List String))
    else (p1.1, s.curPara)
  let p3 :=
    if c = Tag.paragraphLine ∧ s.last = some Tag.tableRow then
      (flushTableOut p2.1 p1.2, ([] : List RowData))
    else (p2.1, p1.2)
  let p4 :=
    match img with
    | some ip =>
      if c ≠ Tag.title then
        let q :=
          if c ≠ Tag.paragraphLine ∧ s.last = some Tag.paragraphLine then
            (flushParaOut p3.1 p2.2, ([] : List String))
          else (p3.1, p2.2)
        (q.1 ++ [Block.imageB ip], q.2)
      else (p3.1, p2.2)
    | none => (p3.1, p2.2)
  match c with
  | Tag.title =>
    let o1 := flushParaOut p4.1 p4.2
    let o2 := flushTableOut o1 p3.2
    let o3 := appendCellBlock o2 r Block.titleB
    let o4 := match ti with
      | some p => o3 ++ [Block.imageB p]
      | none => o3
    { curTable := [], curPara := [], last := some Tag.title, out := o4,
      used := used1 }
  | Tag.sectionHeader =>
    let o1 := flushParaOut p4.1 p4.2
    let o2 := flushTableOut o1 p3.2
    let o3 := appendCellBlock o2 r Block.sectionB
    { curTable := [], curPara := [], last := some Tag.sectionHeader,
      out := o3, used := used1 }
  | Tag.footer =>
    let o1 := flushParaOut p4.1 p4.2
    let o2 := flushTableOut o1 p3.2
    let o3 := appendCellBlock o2 r Block.footerB
    { curTable := [], curPara := [], last := some Tag.footer, out := o3,
      used := used1 }
  | Tag.tableRow =>
    { curTable := p3.2 ++ [r], curPara := p4.2, last := some Tag.tableRow,
      out := p4.1, used := used1 }
  | Tag.paragraphLine =>
    let line := paraLineOf r
    { curTable := p3.2,
      curPara := if line = "" then p4.2 else p4.2 ++ [line],
      last := some Tag.paragraphLine, out := p4.1, used := used1 }
  | Tag.empty =>
    let q1 :=
      if s.last = some Tag.tableRow then
        (flushTableOut p4.1 p3.2, ([] : List RowData))
      else (p4.1, p3.2)
    let q2 :=
      if s.last = some Tag.paragraphLine then
        (flushParaOut q1.1 p4.2, ([] : List String))
      else (q1.1, p4.2)
    { curTable := q1.2, curPara := q2.2, last := s.last, out := q2.1,
      used := used1 }

/-- The initial loop state of `convert`, after the title-image pre-pass. -/
def initState (sd : SheetData) : ConvState :=
  { curTable := [], curPara := [], last := none, out := [],
    used := (findTitleImg sd.images sd.rows []).2 }

/-- The title image the pre-pass selects. -/
def titleImgOf (sd : SheetData) : Option String :=
  (findTitleImg sd.images sd.rows []).1

/-- The loop of `HtmlConverter.convert` over all rows, followed by the final
flush of both accumulations. -/
def convertModel (sd : SheetData) : ConvState :=
  let fin :=
    sd.rows.foldl (step (ctxOf sd) sd.images (titleImgOf sd)) (initState sd)
  { fin with
    out := flushParaOut (flushTableOut fin.out fin.curTable) fin.curPara,
    curTable := [], curPara := [] }

/-- The classification sequence of the loop, each row paired with its tag;
the previous-classification accumulator is updated only by non-empty
classifications, exactly as the loop updates `last_classification`. -/
def annotateFrom (ctx : Ctx) (prevC : Option Tag) :
    List RowData → List (RowData × Tag)
  | [] => []
  | r :: rs =>
    let c := classifyRow ctx r prevC
    (r, c) :: annotateFrom ctx (if c = Tag.empty then prevC else some c) rs

/-- The `(previous classification, classification)` pairs the loop feeds to
and receives from `_classify_row`, row by row. -/
def classTrace (ctx : Ctx) (prevC : Option Tag) :
    List RowData → List (Option Tag × Tag)
  | [] => []
  | r :: rs =>
    let c := classifyRow ctx r prevC
    (prevC, c) :: classTrace ctx (if c = Tag.empty then prevC else some c) rs

/-- The row lists of the emitted table blocks, in emission order. -/
def tableBlocks (out : List Block) : List (List RowData) :=
  out.filterMap fun b =>
    match b with
    | Block.table rows => some rows
    | _ => none

/-- The image paths of the emitted image tags, in emission order. -/
def imagePaths (out : List Block) : List String :=
  out.filterMap fun b =>
    match b with
    | Block.imageB p => some p
    | _ => none

/-- A row annotated as a table row. -/
def annTR (r : RowData) : RowData × Tag := (r, Tag.tableRow)

/-- The block lists are, in order, disjoint contiguous runs of the
annotated row sequence, every row of a run classified `table_row`. -/
def isTableRuns : List (List RowData) → List (RowData × Tag) → Prop
  | [], _ => True
  | b :: bs, ann =>
    ∃ pre rest, ann = pre ++ b.map annTR ++ rest ∧ isTableRuns bs rest

/-- The loop-state invariant of `convert`: a non-empty accumulation implies
the matching last classification. -/
def CInv (s : ConvState) : Prop :=
  (s.curTable ≠ [] → s.last = some Tag.tableRow) ∧
  (s.curPara ≠ [] → s.last = some Tag.paragraphLine)

instance (s : ConvState) : Decidable (CInv s) := by
  unfold CInv; infer_instance

/-- A concrete instance for C1: the range spanning rows 2-4 of column 1;
coordinate (3,1) is a covered non-owner and resolves to the owner (2,1). -/
def mrEx : MergeRange := { minRow := 2, maxRow := 4, minCol := 1, maxCol := 1 }

/-- An example stored-value map: only the owner coordinate holds a value. -/
def sheetEx : Coord → Option String :=
  fun c => if c = ((2, 1) : Coord) then some "X" else none

/-! Concrete grid fragments used by the counterexamples and witnesses. -/

/-- A plain unmerged, unstyled cell. -/
def plainCell (row col : Nat) (v : Option String) : CellData :=
  { row := row, column := col, value := v, bold := false, hasBorder := false,
    isMerged := false, isTopLeftMerged := false, mergeMinCol := 0,
    mergeMaxCol := 0, colspan := 1, rowspan := 1 }

/-- A single footer-keyword cell. -/
def cell2ex : CellData := plainCell 5 1 (some "Data is for guidance only.")

/-- Row 5 of a 10-row sheet holding only the footer-keyword cell. -/
def row2ex : RowData := { rowIdx := 5, cells := [cell2ex] }

/-- The context of a 10-row sheet starting at column 1. -/
def ctx2ex : Ctx := { totalRows := 10, minCol := 1 }

/-- An eleven-word merged cell spanning two of ten columns, no border. -/
def cell4ex : CellData :=
  { row := 10, column := 1,
    value := some "one two three four five six seven eight nine ten eleven",
    bold := false, hasBorder := false, isMerged := true,
    isTopLeftMerged := true, mergeMinCol := 1, mergeMaxCol := 2,
    colspan := 2, rowspan := 1 }

/-- The covered partner cell of `cell4ex`. -/
def cov4ex : CellData :=
  { cell4ex with column := 2, isTopLeftMerged := false, colspan := 1 }

/-- A ten-column row whose only content is the two-column merge `cell4ex`. -/
def row4ex : RowData :=
  { rowIdx := 10,
    cells := [cell4ex, cov4ex, plainCell 10 3 none, plainCell 10 4 none,
      plainCell 10 5 none, plainCell 10 6 none, plainCell 10 7 none,
      plainCell 10 8 none, plainCell 10 9 none, plainCell 10 10 none] }

/-- The context of a 100-row sheet starting at column 1. -/
def ctx4ex : Ctx := { totalRows := 100, minCol := 1 }

/-- A twenty-character merged cell spanning two of four columns. -/
def cell5ex : CellData :=
  { row := 1, column := 1, value := some "ABCDEFGHIJKLMNOPQRST",
    bold := false, hasBorder := false, isMerged := true,
    isTopLeftMerged := true, mergeMinCol := 1, mergeMaxCol := 2,
    colspan := 2, rowspan := 1 }

/-- The covered partner cell of `cell5ex`. -/
def cov5ex : CellData :=
  { cell5ex with column := 2, isTopLeftMerged := false, colspan := 1 }

/-- A four-column first row whose only content is the two-column merge
`cell5ex`. -/
def row5ex : RowData :=
  { rowIdx := 1,
    cells := [cell5ex, cov5ex, plainCell 1 3 none, plainCell 1 4 none] }

/-! C10: the previous classification fed to the classifier. -/

/-- The last non-`empty` tag of a list, or the default when there is
none. -/
def lastNonEmptyOr (ts : List Tag) (d : Option Tag) : Option Tag :=
  match (ts.filter fun t => t ≠ Tag.empty).getLast? with
  | some t => some t
  | none => d

/-- A plain one-cell paragraph row at index 1. -/
def rowParaEx : RowData := ⟨1, [plainCell 1 1 (some "just some words here")]⟩

/-- A blank row at index 2. -/
def rowEmptyEx : RowData := ⟨2, [plainCell 2 1 none]⟩

/-- A plain one-cell paragraph row at index 3. -/
def rowParaEx2 : RowData := ⟨3, [plainCell 3 1 (some "more words follow")]⟩

/-- A two-cell data row. -/
def rowTREx : RowData :=
  ⟨1, [plainCell 1 1 (some "a"), plainCell 1 2 (some "b")]⟩

/-- A two-row sheet with no images. -/
def sdEx : SheetData :=
  { rows := [rowParaEx, rowEmptyEx], minCol := 1, images := [] }

/-- A loop state with an open one-row table accumulation. -/
def sWEx : ConvState :=
  { curTable := [rowTREx], curPara := [], last := some Tag.tableRow,
    out := [], used := [] }

/-- The image-placement invariant of the loop: the placed paths are
distinct and all marked used; a pre-selected title image is marked used,
and once placed implies a classification was emitted. -/
def ImgInv (ti : Option String) (s : ConvState) : Prop :=
  (imagePaths s.out).Nodup ∧
  (∀ p ∈ imagePaths s.out, p ∈ s.used) ∧
  (∀ tp, ti = some tp → tp ∈ s.used) ∧
  (∀ tp, ti = some tp → tp ∈ imagePaths s.out → s.last ≠ none)

/-! Lemmas about the merge-range owner index. -/

/-- The dictionary built by the insertion loops, characterised: the last
range of the list containing the coordinate wins. -/
theorem foldl_insertRect_eq (rs : List MergeRange)
    (f : Coord → Option (Coord × MergeRange)) (c : Coord) :
    (rs.foldl insertRect f) c =
      match (rs.filter fun m => decide (mrContains m c)).getLast? with
      | some m => some (mrTopLeft m, m)
      | none => f c := by
  induction rs generalizing f with
  | nil => rfl
  | cons m rest ih =>
    rw [List.foldl_cons, ih]
    by_cases hc : mrContains m c
    · have hfc : ((m :: rest).filter fun x => decide (mrContains x c)) =
          m :: (rest.filter fun x => decide (mrContains x c)) := by
        simp [List.filter_cons, hc]
      rw [hfc]
      rcases hfil : rest.filter fun x => decide (mrContains x c) with _ | ⟨a, l⟩
      · simp [insertRect, hc]
      · rw [List.getLast?_cons_cons]
        rcases hg : (a :: l).getLast? with _ | b
        · simp [List.getLast?_eq_none_iff] at hg
        · rfl
    · have hfc : ((m :: rest).filter fun x => decide (mrContains x c)) =
          rest.filter fun x => decide (mrContains x c) := by
        simp [List.filter_cons, hc]
      rw [hfc]
      rcases hfil : rest.filter fun x => decide (mrContains x c) with _ | ⟨a, l⟩
      · simp [insertRect, hc]
      · rfl

/-- The last element of a list, when there is one, is a member. -/
theorem memOfGetLast? {α : Type} {l : List α} {a : α}
    (h : l.getLast? = some a) : a ∈ l := by
  obtain ⟨hne, hx⟩ := List.mem_getLast?_eq_getLast (Option.mem_def.2 h)
  rw [hx]
  exact List.getLast_mem hne

/-- Two ranges of a non-overlapping list that both cover one coordinate are
the same range. -/
theorem overlap_eq {rs : List MergeRange} (hd : NoOverlap rs)
    {a b : MergeRange} {c : Coord} (ha : a ∈ rs) (hb : b ∈ rs)
    (hca : mrContains a c) (hcb : mrContains b c) : a = b := by
  induction rs with
  | nil => cases ha
  | cons x tl ih =>
    rw [NoOverlap, List.pairwise_cons] at hd
    rcases List.mem_cons.1 ha with rfl | ha'
    · rcases List.mem_cons.1 hb with rfl | hb'
      · rfl
      · exact absurd ⟨hca, hcb⟩ (hd.1 b hb' c)
    · rcases List.mem_cons.1 hb with rfl | hb'
      · exact absurd ⟨hcb, hca⟩ (hd.1 a ha' c)
      · exact ih hd.2 ha' hb'

/-- A coordinate covered by a range of a non-overlapping list looks up that
range's owner entry in the merge index. -/
theorem mergedMap_of_mem {rs : List MergeRange} (hd : NoOverlap rs)
    {m : MergeRange} (hm : m ∈ rs) {c : Coord} (hc : mrContains m c) :
    mergedCellsMap rs c = some (mrTopLeft m, m) := by
  rw [mergedCellsMap, foldl_insertRect_eq]
  have hmem : m ∈ rs.filter fun x => decide (mrContains x c) :=
    List.mem_filter.2 ⟨hm, by simpa using hc⟩
  rcases hg : (rs.filter fun x => decide (mrContains x c)).getLast? with _ | m'
  · rw [List.getLast?_eq_none_iff] at hg
    rw [hg] at hmem
    cases hmem
  · have hm' : m' ∈ rs.filter fun x => decide (mrContains x c) :=
      memOfGetLast? hg
    have hc' : mrContains m' c := by
      have := (List.mem_filter.1 hm').2
      simpa using this
    have : m' = m :=
      overlap_eq hd (List.mem_filter.1 hm').1 hm hc' hc
    rw [this]

/-- A populated entry of the merge index comes from a range of the list
that covers the coordinate, and holds that range's top-left corner. -/
theorem mergedMap_some {rs : List MergeRange} {c : Coord}
    {p : Coord × MergeRange} (h : mergedCellsMap rs c = some p) :
    p.2 ∈ rs ∧ mrContains p.2 c ∧ p.1 = mrTopLeft p.2 := by
  rw [mergedCellsMap, foldl_insertRect_eq] at h
  rcases hg : (rs.filter fun x => decide (mrContains x c)).getLast? with _ | m'
  · rw [hg] at h; cases h
  · rw [hg] at h
    have hm' : m' ∈ rs.filter fun x => decide (mrContains x c) :=
      memOfGetLast? hg
    have := List.mem_filter.1 hm'
    cases h
    exact ⟨this.1, by simpa using this.2, rfl⟩

/-- C1.  For every coordinate covered by a merge range (of a non-overlapping
range list) the resolved value of `CellData._get_value` is the value stored
at the range's top-left coordinate — in particular every non-owner member
resolves to the owner's value — and every coordinate that is no non-owner
member of any range (uncovered, or itself a top-left owner) resolves to its
own stored value. -/
theorem getValue_resolves_merge_owner (rs : List MergeRange)
    (sheet : Coord → Option String) (c : Coord) (hd : NoOverlap rs) :
    (∀ m ∈ rs, mrContains m c →
      getValue sheet (mergedCellsMap rs) c = sheet (mrTopLeft m)) ∧
    ((∀ m ∈ rs, mrContains m c → mrTopLeft m = c) →
      getValue sheet (mergedCellsMap rs) c = sheet c) := by
  constructor
  · intro m hm hc
    rw [getValue, mergedMap_of_mem hd hm hc]
    by_cases htl : mrTopLeft m = c
    · subst htl; simp
    · simp [htl]
  · intro hown
    rw [getValue]
    rcases hmap : mergedCellsMap rs c with _ | p
    · rfl
    · obtain ⟨p1, p2⟩ := p
      obtain ⟨hmem, hcon, htl⟩ := mergedMap_some hmap
      have h1 : p1 = c := by
        simp only [] at htl hmem hcon
        rw [htl]
        exact hown p2 hmem hcon
      subst h1
      simp

/-- Witness for C1 at the concrete merge range `mrEx`: the hypotheses hold
and the resolution facts follow by applying the theorem. -/
theorem getValue_resolves_merge_owner_witness :
    NoOverlap [mrEx] ∧
    ((∀ m ∈ [mrEx], mrContains m ((3, 1) : Coord) →
        getValue sheetEx (mergedCellsMap [mrEx]) ((3, 1) : Coord) =
          sheetEx (mrTopLeft m)) ∧
      ((∀ m ∈ [mrEx], mrContains m ((3, 1) : Coord) →
          mrTopLeft m = ((3, 1) : Coord)) →
        getValue sheetEx (mergedCellsMap [mrEx]) ((3, 1) : Coord) =
          sheetEx ((3, 1) : Coord))) := by
  have hd : NoOverlap [mrEx] := by
    rw [NoOverlap]
    exact List.pairwise_singleton _ _
  exact ⟨hd, getValue_resolves_merge_owner [mrEx] sheetEx ((3, 1) : Coord) hd⟩

/-! C2: the footer classification. -/

/-- C2, counterexample.  Row 5 of a 10-row sheet is not within the last 5
rows (indices 6..10), yet its footer-keyword single cell is classified
`footer`: the source window is `row_idx >= len(rows) - 5`, one row wider
than the claim's. -/
theorem classify_footer_window_cex :
    classifyRow ctx2ex row2ex (some Tag.paragraphLine) = Tag.footer ∧
    row2ex.rowIdx + 5 ≤ ctx2ex.totalRows := by decide

/-- C2, amended.  For a non-empty row on which the Title rule does not fire,
`_classify_row` returns `footer` exactly when the row index is at least
`totalRows - 5` (the last six index positions) and `_is_like_footer` holds:
exactly one non-empty cell with merge-covered cells counted, whose text
contains a footer keyword. -/
theorem classify_footer_iff (ctx : Ctx) (r : RowData) (prevC : Option Tag)
    (firstCell : CellData) (rest : List CellData)
    (hfc : nonEmptyCells r true = firstCell :: rest)
    (hnt : ¬(r.rowIdx ≤ 3 ∧ prevC = none ∧
      isLikeTitle r (cellText firstCell) = true)) :
    classifyRow ctx r prevC = Tag.footer ↔
      ((ctx.totalRows : Int) - 5 ≤ (r.rowIdx : Int) ∧
        isLikeFooter r (lowerStr (cellText firstCell)) = true) := by
  have ht : (decide (r.rowIdx ≤ 3) && decide (prevC = none) &&
      isLikeTitle r (cellText firstCell)) = false := by
    by_contra hx
    rw [Bool.not_eq_false, Bool.and_eq_true, Bool.and_eq_true] at hx
    exact hnt ⟨of_decide_eq_true hx.1.1, of_decide_eq_true hx.1.2, hx.2⟩
  rw [classifyRow, rowIsEmpty, hfc]
  simp only [List.isEmpty_cons, Bool.false_eq_true, if_false, ht,
    Bool.false_eq_true, if_false]
  by_cases hfo : ((ctx.totalRows : Int) - 5 ≤ (r.rowIdx : Int)) ∧
      isLikeFooter r (lowerStr (cellText firstCell)) = true
  · have : (decide ((r.rowIdx : Int) ≥ (ctx.totalRows : Int) - 5) &&
        isLikeFooter r (lowerStr (cellText firstCell))) = true := by
      rw [Bool.and_eq_true, decide_eq_true_eq]
      exact ⟨hfo.1, hfo.2⟩
    rw [this]
    simp only [if_true]
    exact ⟨fun _ => hfo, fun _ => trivial⟩
  · have : (decide ((r.rowIdx : Int) ≥ (ctx.totalRows : Int) - 5) &&
        isLikeFooter r (lowerStr (cellText firstCell))) = false := by
      by_contra hx
      rw [Bool.not_eq_false, Bool.and_eq_true, decide_eq_true_eq] at hx
      exact hfo ⟨hx.1, hx.2⟩
    rw [this]
    simp only [Bool.false_eq_true, if_false]
    constructor
    · intro h
      exfalso
      split at h
      · exact absurd h (by simp)
      · split at h
        · split at h <;> simp_all
        · simp_all
    · intro h
      exact absurd h hfo

/-- Witness for the amended C2 at the concrete footer row `row2ex`. -/
theorem classify_footer_iff_witness :
    classifyRow ctx2ex row2ex (some Tag.paragraphLine) = Tag.footer ↔
      ((ctx2ex.totalRows : Int) - 5 ≤ (row2ex.rowIdx : Int) ∧
        isLikeFooter row2ex (lowerStr (cellText cell2ex)) = true) :=
  classify_footer_iff ctx2ex row2ex (some Tag.paragraphLine) cell2ex []
    (by decide) (by decide)

/-! C4: the long-merge-to-paragraph override. -/

/-- C4, counterexample.  The only non-empty cell of `row4ex` spans two of
ten columns — not more than half — has no border and holds eleven words,
yet the row is reclassified `paragraph_line`: the source override tests
`colspan > 1`, not a half-row span. -/
theorem classify_paragraph_span_cex :
    nonEmptyCells row4ex true = [cell4ex] ∧
    2 * cell4ex.colspan ≤ row4ex.cells.length ∧
    cell4ex.hasBorder = false ∧
    wordCount (cellText cell4ex) > 10 ∧
    classifyRow ctx4ex row4ex (some Tag.paragraphLine) = Tag.paragraphLine := by
  decide

/-- C4, amended.  A non-empty row with exactly one non-empty cell whose
colspan exceeds 1 (any merge wider than one column), more than ten words,
no border, previous classification neither `table_row` nor
`section_header`, and on which the Title, Footer and SectionHeader rules do
not fire, is classified `paragraph_line` instead of `table_row`. -/
theorem classify_paragraph_override (ctx : Ctx) (r : RowData)
    (prevC : Option Tag) (firstCell : CellData)
    (hfc : nonEmptyCells r true = [firstCell])
    (hnt : ¬(r.rowIdx ≤ 3 ∧ prevC = none ∧
      isLikeTitle r (cellText firstCell) = true))
    (hnf : ¬((ctx.totalRows : Int) - 5 ≤ (r.rowIdx : Int) ∧
      isLikeFooter r (lowerStr (cellText firstCell)) = true))
    (hns : ¬(firstCell.column = ctx.minCol ∧
      isLikeSectionHeader r (upperStr (cellText firstCell))
        (lowerStr (cellText firstCell)) = true))
    (hcs : firstCell.colspan > 1)
    (hw : wordCount (cellText firstCell) > 10)
    (hb : firstCell.hasBorder = false)
    (hp1 : prevC ≠ some Tag.tableRow)
    (hp2 : prevC ≠ some Tag.sectionHeader) :
    classifyRow ctx r prevC = Tag.paragraphLine := by
  have ht : (decide (r.rowIdx ≤ 3) && decide (prevC = none) &&
      isLikeTitle r (cellText firstCell)) = false := by
    by_contra hx
    rw [Bool.not_eq_false, Bool.and_eq_true, Bool.and_eq_true] at hx
    exact hnt ⟨of_decide_eq_true hx.1.1, of_decide_eq_true hx.1.2, hx.2⟩
  have hf : (decide ((r.rowIdx : Int) ≥ (ctx.totalRows : Int) - 5) &&
      isLikeFooter r (lowerStr (cellText firstCell))) = false := by
    by_contra hx
    rw [Bool.not_eq_false, Bool.and_eq_true, decide_eq_true_eq] at hx
    exact hnf ⟨hx.1, hx.2⟩
  have hs : (decide (firstCell.column = ctx.minCol) &&
      isLikeSectionHeader r (upperStr (cellText firstCell))
        (lowerStr (cellText firstCell))) = false := by
    by_contra hx
    rw [Bool.not_eq_false, Bool.and_eq_true, decide_eq_true_eq] at hx
    exact hns ⟨hx.1, hx.2⟩
  have hcont : (decide (prevC = some Tag.tableRow) ||
      decide (prevC = some Tag.sectionHeader)) = false := by
    simp [hp1, hp2]
  rw [classifyRow, rowIsEmpty, hfc]
  simp only [List.isEmpty_cons, Bool.false_eq_true, if_false, ht, hf, hs,
    hfc, hcont, hb, List.length_cons, List.length_nil]
  have h1 : decide ((0 : Nat) + 1 > 1) = false := by decide
  have h2 : decide ((0 : Nat) + 1 = 1) = true := by decide
  have h3 : decide (firstCell.colspan > 1) = true := decide_eq_true hcs
  have h4 : decide (wordCount (cellText firstCell) > 10) = true :=
    decide_eq_true hw
  simp [h1, h2, h3, h4]

/-- Witness for the amended C4 at the concrete wide-merge row `row4ex`. -/
theorem classify_paragraph_override_witness :
    classifyRow ctx4ex row4ex (some Tag.paragraphLine) = Tag.paragraphLine :=
  classify_paragraph_override ctx4ex row4ex (some Tag.paragraphLine) cell4ex
    (by decide) (by decide) (by decide) (by decide) (by decide) (by decide)
    (by decide) (by decide) (by decide)

/-! C5: the title classification. -/

/-- C5, counterexample.  In the first row of `row5ex` the only non-empty
cell spans two of four columns — at least half — with a 20-character text,
with no prior classification, yet the row is classified `table_row`, not
`title`: `_is_like_title` demands `colspan > max(1, len(cells) // 2)`,
strictly more than half. -/
theorem classify_title_half_span_cex :
    row5ex.rowIdx ≤ 3 ∧
    nonEmptyCells row5ex true = [cell5ex] ∧
    2 * cell5ex.colspan ≥ row5ex.cells.length ∧
    strLen (cellText cell5ex) > 15 ∧
    classifyRow ctx4ex row5ex none = Tag.tableRow := by decide

/-- C5, amended.  `_classify_row` returns `title` exactly when the row
index is at most 3, no classification was emitted yet, the row is
non-empty, and `_is_like_title` holds of the row and the first non-empty
cell's text: the row's first cell (empty or not) has
`colspan > max(1, len(cells) // 2)` while the text is longer than 15
characters, or the text has a cable/conductor/wire keyword together with
the voltage pattern, or it contains "basec". -/
theorem classify_title_iff (ctx : Ctx) (r : RowData) (prevC : Option Tag) :
    classifyRow ctx r prevC = Tag.title ↔
      ∃ firstCell rest, nonEmptyCells r true = firstCell :: rest ∧
        r.rowIdx ≤ 3 ∧ prevC = none ∧
        isLikeTitle r (cellText firstCell) = true := by
  rcases hfc : nonEmptyCells r true with _ | ⟨fc, rest⟩
  · have h1 : classifyRow ctx r prevC = Tag.empty := by
      rw [classifyRow, rowIsEmpty, hfc]
      simp
    rw [h1]
    constructor
    · intro h
      cases h
    · rintro ⟨fc, rest, hfc', -, -, -⟩
      simp at hfc'
  · rw [classifyRow, rowIsEmpty, hfc]
    simp only [List.isEmpty_cons, Bool.false_eq_true, if_false]
    rcases hb : (decide (r.rowIdx ≤ 3) && decide (prevC = none) &&
        isLikeTitle r (cellText fc)) with _ | _
    · simp only [Bool.false_eq_true, if_false]
      constructor
      · intro h
        exfalso
        split at h
        · simp_all
        · split at h
          · simp_all
          · split at h
            · split at h <;> simp_all
            · simp_all
      · rintro ⟨fc', rest', hfc', h3, h4, h5⟩
        injection hfc' with e1 e2
        subst e1
        simp [h3, h4, h5] at hb
    · simp only [if_true]
      rw [Bool.and_eq_true, Bool.and_eq_true] at hb
      exact ⟨fun _ => ⟨fc, rest, rfl, of_decide_eq_true hb.1.1,
        of_decide_eq_true hb.1.2, hb.2⟩, fun _ => trivial⟩

/-! C3: the column-identifier derivation. -/

/-- C3.  At the header text of the spec's own example the source's header
loop fails — the sanitization statements sit inside `if h is None:` after
`continue`, so `if s:` reads an unassigned local — while the sanitization
those dead statements spell out (and the claim describes) would indeed
produce `cable_size_mm`.  More generally any `headers_raw` whose first
non-`None` entry is reached raises; the loop only terminates normally when
every entry is `None`. -/
theorem sqlHeaderDerivation_bug :
    buildHeaders [some "Cable Size (mm²)"] =
      Except.error "UnboundLocalError: s" ∧
    sanitizeIdent "Cable Size (mm²)" = "cable_size_mm" :=
  ⟨rfl, by decide⟩

/-! C7 and C8: the table reconstruction. -/

/-- Bounds of the header scan: the collected header rows never outnumber
the returned end index, and the end index never passes the end of the
block. -/
theorem headerScanAux_le (rows : List RowData) (idx lastEnd : Nat)
    (h : lastEnd ≤ idx) :
    (headerScanAux rows idx lastEnd).1.length + lastEnd ≤
        (headerScanAux rows idx lastEnd).2 ∧
      (headerScanAux rows idx lastEnd).2 ≤ idx + rows.length := by
  induction rows generalizing idx lastEnd with
  | nil => simpa [headerScanAux] using h
  | cons r rest ih =>
    rw [headerScanAux]
    by_cases he : (nonEmptyCells r false).isEmpty
    · rw [if_pos he]
      have := ih (idx + 1) lastEnd (h.trans (Nat.le_succ idx))
      constructor
      · exact this.1
      · calc (headerScanAux rest (idx + 1) lastEnd).2
            ≤ (idx + 1) + rest.length := this.2
          _ = idx + (r :: rest).length := by simp [List.length_cons]; omega
    · rw [if_neg he]
      by_cases hq : isHeaderQual idx r = true
      · rw [if_pos hq]
        have := ih (idx + 1) (idx + 1) le_rfl
        constructor
        · simp only [List.length_cons]
          omega
        · simp only [List.length_cons]
          omega
      · rw [if_neg hq]
        constructor
        · simp
        · simp only [List.length_cons]
          omega

/-- Each header row contributes at most one `thead` row. -/
theorem buildThead_length_le (rows : List RowData) (maxCol : Nat)
    (cov : List Coord) :
    (buildThead rows maxCol cov).1.length ≤ rows.length := by
  induction rows generalizing cov with
  | nil => simp [buildThead]
  | cons r rest ih =>
    rw [buildThead]
    by_cases he :
        (theadRowCells r.cells r.rowIdx maxCol cov).1.isEmpty
    · rw [if_pos he]
      exact (ih _).trans (Nat.le_succ _)
    · rw [if_neg he]
      simpa [List.length_cons] using ih _

/-- Each data row contributes at most one `tbody` row. -/
theorem buildTbody_length_le (rows : List RowData) (maxCol : Nat)
    (cov : List Coord) :
    (buildTbody rows maxCol cov).length ≤ rows.length := by
  induction rows generalizing cov with
  | nil => simp [buildTbody]
  | cons r rest ih =>
    rw [buildTbody]
    by_cases he :
        (tbodyRowCells r.cells r.rowIdx maxCol cov true).1.isEmpty
    · rw [if_pos he]
      exact (ih _).trans (Nat.le_succ _)
    · rw [if_neg he]
      simpa [List.length_cons] using ih _

/-- C7.  The number of rendered table rows (`thead` plus `tbody` `tr`
elements) of `_create_table_element` never exceeds the number of input rows
of the block. -/
theorem createTable_row_count_le (rows : List RowData) :
    trCount (createTable rows) ≤ rows.length := by
  rw [createTable]
  by_cases h0 : rows.isEmpty
  · rw [if_pos h0]
    simp [trCount]
  · rw [if_neg h0]
    by_cases h1 : maxColIndex rows = 0
    · rw [if_pos h1]
      simp [trCount]
    · rw [if_neg h1]
      have hscan := headerScanAux_le rows 0 0 le_rfl
      by_cases h2 : (tableTrs rows).1.isEmpty && (tableTrs rows).2.isEmpty
      · rw [if_pos h2]
        simp [trCount]
      · rw [if_neg h2]
        show (tableTrs rows).1.length + (tableTrs rows).2.length ≤ rows.length
        have hh : (tableTrs rows).1.length ≤
            (headerScanAux rows 0 0).1.length := by
          rw [tableTrs]
          exact buildThead_length_le _ _ _
        have hb : (tableTrs rows).2.length ≤
            (rows.drop (headerScanAux rows 0 0).2).length := by
          rw [tableTrs]
          exact buildTbody_length_le _ _ _
        have hd : (rows.drop (headerScanAux rows 0 0).2).length =
            rows.length - (headerScanAux rows 0 0).2 := List.length_drop _ _
        omega

/-- C8.  Whenever the reconstruction yields zero rendered rows — the block
is empty, the maximum occupied column is 0, or no `tr` survives —
`_create_table_element` returns `None`, and `_flush_table` then appends
nothing to the output (and, being total, raises nothing). -/
theorem createTable_none_discarded (rows : List RowData) (out : List Block) :
    ((rows = [] ∨ maxColIndex rows = 0 ∨
        ((tableTrs rows).1 = [] ∧ (tableTrs rows).2 = [])) →
      createTable rows = none) ∧
    (createTable rows = none → flushTableOut out rows = out) := by
  constructor
  · intro h
    rw [createTable]
    rcases h with h | h | h
    · rw [if_pos (by simp [h])]
    · by_cases h0 : rows.isEmpty
      · rw [if_pos h0]
      · rw [if_neg h0, if_pos h]
    · by_cases h0 : rows.isEmpty
      · rw [if_pos h0]
      · rw [if_neg h0]
        by_cases h1 : maxColIndex rows = 0
        · rw [if_pos h1]
        · rw [if_neg h1, if_pos (by simp [h.1, h.2])]
  · intro h
    rw [flushTableOut]
    by_cases h0 : rows.isEmpty
    · rw [if_pos h0]
    · rw [if_neg h0, h]

/-- Witness for C8: a one-row block whose only cell is empty has maximum
occupied column 0, reconstructs to `None`, and flushing it appends
nothing. -/
theorem createTable_none_discarded_witness :
    (([⟨1, [plainCell 1 1 none]⟩] : List RowData) = [] ∨
        maxColIndex [⟨1, [plainCell 1 1 none]⟩] = 0 ∨
        ((tableTrs [⟨1, [plainCell 1 1 none]⟩]).1 = [] ∧
          (tableTrs [⟨1, [plainCell 1 1 none]⟩]).2 = [])) ∧
    createTable [⟨1, [plainCell 1 1 none]⟩] = none ∧
    flushTableOut [Block.para "p"] [⟨1, [plainCell 1 1 none]⟩] =
      [Block.para "p"] := by
  refine ⟨Or.inr (Or.inl (by decide)), ?_, ?_⟩
  · exact (createTable_none_discarded [⟨1, [plainCell 1 1 none]⟩] []).1
      (Or.inr (Or.inl (by decide)))
  · exact (createTable_none_discarded [⟨1, [plainCell 1 1 none]⟩]
        [Block.para "p"]).2
      ((createTable_none_discarded [⟨1, [plainCell 1 1 none]⟩] []).1
        (Or.inr (Or.inl (by decide))))

/-- Pushing one tag through `lastNonEmptyOr` updates the default exactly
the way the loop updates `last_classification`. -/
theorem lastNonEmptyOr_cons (c : Tag) (ts : List Tag) (d : Option Tag) :
    lastNonEmptyOr (c :: ts) d =
      lastNonEmptyOr ts (if c = Tag.empty then d else some c) := by
  rw [lastNonEmptyOr, lastNonEmptyOr]
  by_cases hc : c = Tag.empty
  · rw [List.filter_cons, if_neg (by simp [hc]), if_pos hc]
  · rw [List.filter_cons, if_pos (by simp [hc]), if_neg hc]
    rcases hf : ts.filter (fun t => t ≠ Tag.empty) with _ | ⟨a, l⟩
    · rfl
    · rw [List.getLast?_cons_cons]
      rcases hg : (a :: l).getLast? with _ | b
      · simp [List.getLast?_eq_none_iff] at hg
      · rfl

/-- C10.  The previous classification the loop passes to `_classify_row`
for a row is the tag of the nearest preceding row whose classification was
not `empty`, or the initial previous classification when every preceding
row classified `empty`; with the loop's initial `None` this is exactly the
nearest preceding non-empty tag, and runs of blank rows never reset it. -/
theorem classify_prev_is_last_non_empty (ctx : Ctx) (rows : List RowData)
    (prevC : Option Tag) (i : Nat) (pc : Option Tag × Tag)
    (h : (classTrace ctx prevC rows)[i]? = some pc) :
    pc.1 =
      lastNonEmptyOr (((classTrace ctx prevC rows).map Prod.snd).take i)
        prevC := by
  induction rows generalizing prevC i with
  | nil => rw [classTrace] at h; cases i <;> cases h
  | cons r rest ih =>
    rw [classTrace] at h ⊢
    cases i with
    | zero =>
      simp only [List.getElem?_cons_zero, Option.some.injEq] at h
      rw [← h]
      rfl
    | succ i =>
      simp only [List.getElem?_cons_succ] at h
      have := ih _ i h
      rw [List.map_cons, List.take_succ_cons, lastNonEmptyOr_cons]
      exact this

/-- Witness for C10: in a paragraph/blank/paragraph run the third row still
receives the first row's tag as previous classification — the blank row did
not reset it. -/
theorem classify_prev_is_last_non_empty_witness :
    (classTrace ctx2ex none [rowParaEx, rowEmptyEx, rowParaEx2])[2]? =
      some (some Tag.paragraphLine, Tag.paragraphLine) ∧
    (some Tag.paragraphLine, Tag.paragraphLine).1 =
      lastNonEmptyOr
        (((classTrace ctx2ex none
          [rowParaEx, rowEmptyEx, rowParaEx2]).map Prod.snd).take 2) none :=
  ⟨by decide,
    classify_prev_is_last_non_empty ctx2ex [rowParaEx, rowEmptyEx, rowParaEx2]
      none 2 (some Tag.paragraphLine, Tag.paragraphLine) (by decide)⟩

/-! C6 and C9: lemmas about the accumulation fold. -/

/-- `tableBlocks` distributes over append. -/
theorem tableBlocks_append (o1 o2 : List Block) :
    tableBlocks (o1 ++ o2) = tableBlocks o1 ++ tableBlocks o2 :=
  List.filterMap_append _ _ _

/-- `imagePaths` distributes over append. -/
theorem imagePaths_append (o1 o2 : List Block) :
    imagePaths (o1 ++ o2) = imagePaths o1 ++ imagePaths o2 :=
  List.filterMap_append _ _ _

/-- A flushed paragraph changes no table block. -/
theorem tableBlocks_flushParaOut (out : List Block) (l : List String) :
    tableBlocks (flushParaOut out l) = tableBlocks out := by
  rw [flushParaOut]
  split
  · rfl
  · dsimp only
    split
    · rfl
    · rw [tableBlocks_append]
      simp [tableBlocks]

/-- A title/section/footer block changes no table block. -/
theorem tableBlocks_appendCellBlock (out : List Block) (r : RowData)
    (mk : String → Block) (h : ∀ t, tableBlocks [mk t] = []) :
    tableBlocks (appendCellBlock out r mk) = tableBlocks out := by
  rw [appendCellBlock]
  split
  · rw [tableBlocks_append, h, List.append_nil]
  · rfl

/-- Extending the annotated sequence on the right preserves the run
decomposition. -/
theorem runs_ext {bs : List (List RowData)} {a : List (RowData × Tag)}
    (h : isTableRuns bs a) (ext : List (RowData × Tag)) :
    isTableRuns bs (a ++ ext) := by
  induction bs generalizing a with
  | nil => trivial
  | cons b bs ih =>
    obtain ⟨pre, rest, hEq, hRest⟩ := h
    exact ⟨pre, rest ++ ext, by rw [hEq]; simp, ih hRest⟩

/-- Appending one table-row run at the end of the annotated sequence
appends one block to the run decomposition. -/
theorem runs_append {bs : List (List RowData)} {a : List (RowData × Tag)}
    (h : isTableRuns bs a) (b : List RowData) (ext : List (RowData × Tag)) :
    isTableRuns (bs ++ [b]) (a ++ b.map annTR ++ ext) := by
  induction bs generalizing a with
  | nil => exact ⟨a, ext, by simp, trivial⟩
  | cons b0 bs ih =>
    obtain ⟨pre, rest, hEq, hRest⟩ := h
    exact ⟨pre, rest ++ b.map annTR ++ ext, by rw [hEq]; simp, ih hRest⟩

/-- A table flush of the buffer `tb` — whether the block is emitted or
discarded — carries the run decomposition across `tb`'s annotated rows. -/
theorem runs_flush {out : List Block} {a : List (RowData × Tag)}
    (h : isTableRuns (tableBlocks out) a) (tb : List RowData)
    (ext : List (RowData × Tag)) :
    isTableRuns (tableBlocks (flushTableOut out tb))
      (a ++ tb.map annTR ++ ext) := by
  rw [flushTableOut]
  split
  · simpa using runs_ext h (tb.map annTR ++ ext)
  · split
    · rw [tableBlocks_append]
      exact runs_append h tb ext
    · simpa using runs_ext h (tb.map annTR ++ ext)

theorem tableBlocks_singleton_image (p : String) :
    tableBlocks [Block.imageB p] = [] := rfl

theorem flushTableOut_nil (out : List Block) : flushTableOut out [] = out := rfl

theorem tableBlocks_appendTitle (out : List Block) (r : RowData) :
    tableBlocks (appendCellBlock out r Block.titleB) = tableBlocks out :=
  tableBlocks_appendCellBlock out r Block.titleB fun _ => rfl

theorem tableBlocks_appendSection (out : List Block) (r : RowData) :
    tableBlocks (appendCellBlock out r Block.sectionB) = tableBlocks out :=
  tableBlocks_appendCellBlock out r Block.sectionB fun _ => rfl

theorem tableBlocks_appendFooter (out : List Block) (r : RowData) :
    tableBlocks (appendCellBlock out r Block.footerB) = tableBlocks out :=
  tableBlocks_appendCellBlock out r Block.footerB fun _ => rfl

theorem step_curTable_nonTR (ctx : Ctx) (imgs : List ImgInfo)
    (ti : Option String) (s : ConvState) (r : RowData) (hInv : CInv s)
    (hc : classifyRow ctx r s.last ≠ Tag.tableRow) :
    (step ctx imgs ti s r).curTable = [] := by
  obtain ⟨hI1, hI2⟩ := hInv
  have hbuf : s.last ≠ some Tag.tableRow → s.curTable = [] := by
    intro hl
    by_contra hx
    exact hl (hI1 hx)
  rcases hcc : classifyRow ctx r s.last with _ | _ | _ | _ | _ | _
  case tableRow => exact absurd hcc hc
  case title => simp [step, hcc]
  case sectionHeader => simp [step, hcc]
  case footer => simp [step, hcc]
  case paragraphLine =>
    simp only [step, hcc]
    by_cases hl : s.last = some Tag.tableRow
    · simp [hl]
    · simp [hl, hbuf hl]
  case empty =>
    simp only [step, hcc]
    by_cases hl : s.last = some Tag.tableRow
    · simp [hl]
    · simp [hl, hbuf hl]

theorem step_runs_nonTR (ctx : Ctx) (imgs : List ImgInfo)
    (ti : Option String) (s : ConvState) (r : RowData) (hInv : CInv s)
    (hc : classifyRow ctx r s.last ≠ Tag.tableRow)
    (a ext : List (RowData × Tag))
    (h : isTableRuns (tableBlocks s.out) a) :
    isTableRuns (tableBlocks (step ctx imgs ti s r).out)
      (a ++ s.curTable.map annTR ++ ext) := by
  obtain ⟨hI1, hI2⟩ := hInv
  have hb : s.last ≠ some Tag.tableRow → s.curTable = [] := by
    intro hl
    by_contra hx
    exact hl (hI1 hx)
  rcases hcc : classifyRow ctx r s.last with _ | _ | _ | _ | _ | _
  case tableRow => exact absurd hcc hc
  case title =>
    simp only [step, hcc]
    rcases him : (addImage imgs s.used r.rowIdx).1 with _ | ip
    all_goals by_cases hl : s.last = some Tag.tableRow
    all_goals rcases ti with _ | tp
    all_goals
      simp only [him, hl, ne_eq, reduceCtorEq, not_false_eq_true, true_and,
        false_and, and_false, and_true, if_true, if_false, reduceIte,
        Option.some.injEq, tableBlocks_appendTitle, tableBlocks_flushParaOut,
        flushTableOut_nil, tableBlocks_append, tableBlocks_singleton_image,
        List.append_nil]
    all_goals first
      | exact runs_flush h s.curTable ext
      | (have hct : s.curTable = [] := hb (by exact hl)
         rw [hct]
         simpa [flushTableOut_nil, tableBlocks_flushParaOut,
           tableBlocks_append, tableBlocks_singleton_image] using
           runs_ext h ext)
  case sectionHeader =>
    simp only [step, hcc]
    rcases him : (addImage imgs s.used r.rowIdx).1 with _ | ip
    all_goals by_cases hl : s.last = some Tag.tableRow
    all_goals by_cases hp : s.last = some Tag.paragraphLine
    all_goals
      simp only [him, hl, hp, ne_eq, reduceCtorEq, not_false_eq_true,
        true_and, false_and, and_false, and_true, if_true, if_false,
        reduceIte, Option.some.injEq, tableBlocks_appendSection,
        tableBlocks_flushParaOut, flushTableOut_nil, tableBlocks_append,
        tableBlocks_singleton_image, List.append_nil]
    all_goals first
      | exact runs_flush h s.curTable ext
      | (have hct : s.curTable = [] := hb (by exact hl)
         rw [hct]
         simpa [flushTableOut_nil, tableBlocks_flushParaOut,
           tableBlocks_append, tableBlocks_singleton_image] using
           runs_ext h ext)
  case footer =>
    simp only [step, hcc]
    rcases him : (addImage imgs s.used r.rowIdx).1 with _ | ip
    all_goals by_cases hl : s.last = some Tag.tableRow
    all_goals by_cases hp : s.last = some Tag.paragraphLine
    all_goals
      simp only [him, hl, hp, ne_eq, reduceCtorEq, not_false_eq_true,
        true_and, false_and, and_false, and_true, if_true, if_false,
        reduceIte, Option.some.injEq, tableBlocks_appendFooter,
        tableBlocks_flushParaOut, flushTableOut_nil, tableBlocks_append,
        tableBlocks_singleton_image, List.append_nil]
    all_goals first
      | exact runs_flush h s.curTable ext
      | (have hct : s.curTable = [] := hb (by exact hl)
         rw [hct]
         simpa [flushTableOut_nil, tableBlocks_flushParaOut,
           tableBlocks_append, tableBlocks_singleton_image] using
           runs_ext h ext)
  case paragraphLine =>
    simp only [step, hcc]
    rcases him : (addImage imgs s.used r.rowIdx).1 with _ | ip
    all_goals by_cases hl : s.last = some Tag.tableRow
    all_goals
      simp only [him, hl, ne_eq, reduceCtorEq, not_false_eq_true, true_and,
        false_and, and_false, and_true, if_true, if_false, reduceIte,
        Option.some.injEq, tableBlocks_flushParaOut, flushTableOut_nil,
        tableBlocks_append, tableBlocks_singleton_image, List.append_nil]
    all_goals first
      | exact runs_flush h s.curTable ext
      | (have hct : s.curTable = [] := hb (by exact hl)
         rw [hct]
         simpa [flushTableOut_nil, tableBlocks_flushParaOut,
           tableBlocks_append, tableBlocks_singleton_image] using
           runs_ext h ext)
  case empty =>
    simp only [step, hcc]
    rcases him : (addImage imgs s.used r.rowIdx).1 with _ | ip
    all_goals by_cases hl : s.last = some Tag.tableRow
    all_goals by_cases hp : s.last = some Tag.paragraphLine
    all_goals
      simp only [him, hl, hp, ne_eq, reduceCtorEq, not_false_eq_true,
        true_and, false_and, and_false, and_true, if_true, if_false,
        reduceIte, Option.some.injEq, tableBlocks_flushParaOut,
        flushTableOut_nil, tableBlocks_append,
        tableBlocks_singleton_image, List.append_nil]
    all_goals first
      | exact runs_flush h s.curTable ext
      | (have hct : s.curTable = [] := hb (by exact hl)
         rw [hct]
         simpa [flushTableOut_nil, tableBlocks_flushParaOut,
           tableBlocks_append, tableBlocks_singleton_image] using
           runs_ext h ext)

theorem step_last_eq (ctx : Ctx) (imgs : List ImgInfo) (ti : Option String)
    (s : ConvState) (r : RowData) :
    (step ctx imgs ti s r).last =
      if classifyRow ctx r s.last = Tag.empty then s.last
      else some (classifyRow ctx r s.last) := by
  rcases hcc : classifyRow ctx r s.last <;> simp [step, hcc]

theorem cinv_step (ctx : Ctx) (imgs : List ImgInfo) (ti : Option String)
    (s : ConvState) (r : RowData) (hInv : CInv s) :
    CInv (step ctx imgs ti s r) := by
  obtain ⟨hI1, hI2⟩ := hInv
  have hbP : s.last ≠ some Tag.paragraphLine → s.curPara = [] := by
    intro hp
    by_contra hx
    exact hp (hI2 hx)
  rcases hcc : classifyRow ctx r s.last with _ | _ | _ | _ | _ | _
  case title => simp [CInv, step, hcc]
  case sectionHeader => simp [CInv, step, hcc]
  case footer => simp [CInv, step, hcc]
  case tableRow =>
    constructor
    · intro _
      rw [step_last_eq ctx imgs ti s r, hcc]
      simp
    · intro hx
      exfalso
      apply hx
      simp only [step, hcc]
      rcases him : (addImage imgs s.used r.rowIdx).1 with _ | ip <;>
        by_cases hp : s.last = some Tag.paragraphLine <;>
        first
        | simp [him, hp, hbP hp]
        | simp [him, hp]
  case paragraphLine =>
    constructor
    · intro hx
      exfalso
      apply hx
      exact step_curTable_nonTR ctx imgs ti s r ⟨hI1, hI2⟩ (by rw [hcc]; simp)
    · intro _
      rw [step_last_eq ctx imgs ti s r, hcc]
      simp
  case empty =>
    constructor
    · intro hx
      exfalso
      apply hx
      exact step_curTable_nonTR ctx imgs ti s r ⟨hI1, hI2⟩ (by rw [hcc]; simp)
    · intro hx
      exfalso
      apply hx
      simp only [step, hcc]
      rcases him : (addImage imgs s.used r.rowIdx).1 with _ | ip <;>
        by_cases hp : s.last = some Tag.paragraphLine <;>
        by_cases hl : s.last = some Tag.tableRow <;>
        first
        | simp [him, hp, hl, hbP hp]
        | simp [him, hp, hl]

/-- A `table_row` classification appends the row to the open table
accumulation, sets the last classification, and emits no table block. -/
theorem step_facts_tableRow (ctx : Ctx) (imgs : List ImgInfo)
    (ti : Option String) (s : ConvState) (r : RowData)
    (hc : classifyRow ctx r s.last = Tag.tableRow) :
    (step ctx imgs ti s r).curTable = s.curTable ++ [r] ∧
    (step ctx imgs ti s r).last = some Tag.tableRow ∧
    tableBlocks (step ctx imgs ti s r).out = tableBlocks s.out := by
  simp only [step, hc]
  rcases him : (addImage imgs s.used r.rowIdx).1 with _ | ip <;>
    by_cases hp : s.last = some Tag.paragraphLine <;>
      simp [him, hp, tableBlocks_flushParaOut, tableBlocks_append,
        tableBlocks_singleton_image]

/-- The fold invariant of `convert`: however the loop continues, the table
blocks of the final output — with the still-open accumulation flushed — are
the ordered disjoint table-row runs of the annotated row sequence. -/
theorem runs_go (ctx : Ctx) (imgs : List ImgInfo) (ti : Option String)
    (rest : List RowData) (s : ConvState) (a : List (RowData × Tag))
    (hInv : CInv s) (h : isTableRuns (tableBlocks s.out) a) :
    isTableRuns
      (tableBlocks
        (flushTableOut (rest.foldl (step ctx imgs ti) s).out
          (rest.foldl (step ctx imgs ti) s).curTable))
      (a ++ s.curTable.map annTR ++ annotateFrom ctx s.last rest) := by
  induction rest generalizing s a with
  | nil =>
    simp only [List.foldl_nil, annotateFrom, List.append_nil]
    simpa using runs_flush h s.curTable []
  | cons r rest ih =>
    rw [List.foldl_cons, annotateFrom]
    by_cases hc : classifyRow ctx r s.last = Tag.tableRow
    · obtain ⟨h1, h2, h3⟩ := step_facts_tableRow ctx imgs ti s r hc
      have hInv' := cinv_step ctx imgs ti s r hInv
      have hstep := ih (step ctx imgs ti s r) a hInv' (by rw [h3]; exact h)
      rw [h1, h2] at hstep
      simpa [hc, List.map_append, annTR, List.append_assoc] using hstep
    · have h1 := step_curTable_nonTR ctx imgs ti s r hInv hc
      have hInv' := cinv_step ctx imgs ti s r hInv
      have hlast := step_last_eq ctx imgs ti s r
      have h2 := step_runs_nonTR ctx imgs ti s r hInv hc a
        [(r, classifyRow ctx r s.last)] h
      have hstep := ih (step ctx imgs ti s r)
        (a ++ s.curTable.map annTR ++ [(r, classifyRow ctx r s.last)])
        hInv' h2
      rw [h1, hlast] at hstep
      simpa [List.append_assoc] using hstep

/-- An `empty` classification leaves no open paragraph accumulation. -/
theorem step_curPara_empty (ctx : Ctx) (imgs : List ImgInfo)
    (ti : Option String) (s : ConvState) (r : RowData) (hInv : CInv s)
    (hc : classifyRow ctx r s.last = Tag.empty) :
    (step ctx imgs ti s r).curPara = [] := by
  obtain ⟨hI1, hI2⟩ := hInv
  have hbP : s.last ≠ some Tag.paragraphLine → s.curPara = [] := by
    intro hp
    by_contra hx
    exact hp (hI2 hx)
  simp only [step, hc]
  rcases him : (addImage imgs s.used r.rowIdx).1 with _ | ip <;>
    by_cases hp : s.last = some Tag.paragraphLine <;>
    by_cases hl : s.last = some Tag.tableRow <;>
    first
    | simp [him, hp, hl, hbP hp]
    | simp [him, hp, hl]

/-- C6.  An `empty`-classified row always closes both accumulations — in a
loop state satisfying the invariant, stepping an `empty` row leaves no open
table or paragraph buffer — and consequently the table blocks
`HtmlConverter.convert` emits are, in source order, disjoint contiguous
runs of rows each classified `table_row`, with no intervening
`empty`-classified row inside any block. -/
theorem convert_empty_flushes_and_table_runs (sd : SheetData)
    (s : ConvState) (r : RowData) (h1 : CInv s)
    (h2 : classifyRow (ctxOf sd) r s.last = Tag.empty) :
    ((step (ctxOf sd) sd.images (titleImgOf sd) s r).curTable = [] ∧
      (step (ctxOf sd) sd.images (titleImgOf sd) s r).curPara = []) ∧
    isTableRuns (tableBlocks (convertModel sd).out)
      (annotateFrom (ctxOf sd) none sd.rows) := by
  constructor
  · exact ⟨step_curTable_nonTR _ _ _ _ _ h1 (by rw [h2]; simp),
      step_curPara_empty _ _ _ _ _ h1 h2⟩
  · have hrun := runs_go (ctxOf sd) sd.images (titleImgOf sd) sd.rows
      (initState sd) [] (by constructor <;> simp [initState]) trivial
    simp only [initState, List.map_nil, List.nil_append] at hrun
    have hout : tableBlocks (convertModel sd).out =
        tableBlocks
          (flushTableOut
            (sd.rows.foldl (step (ctxOf sd) sd.images (titleImgOf sd))
              (initState sd)).out
            (sd.rows.foldl (step (ctxOf sd) sd.images (titleImgOf sd))
              (initState sd)).curTable) := by
      rw [convertModel]
      exact tableBlocks_flushParaOut _ _
    rw [hout]
    exact hrun

/-- Witness for C6 at the concrete state `sWEx` and the blank row
`rowEmptyEx`. -/
theorem convert_empty_flushes_and_table_runs_witness :
    CInv sWEx ∧
    classifyRow (ctxOf sdEx) rowEmptyEx sWEx.last = Tag.empty ∧
    (((step (ctxOf sdEx) sdEx.images (titleImgOf sdEx) sWEx
          rowEmptyEx).curTable = [] ∧
        (step (ctxOf sdEx) sdEx.images (titleImgOf sdEx) sWEx
          rowEmptyEx).curPara = []) ∧
      isTableRuns (tableBlocks (convertModel sdEx).out)
        (annotateFrom (ctxOf sdEx) none sdEx.rows)) :=
  ⟨by decide, by decide,
    convert_empty_flushes_and_table_runs sdEx sWEx rowEmptyEx (by decide)
      (by decide)⟩

/-- A flushed table changes no image tag. -/
theorem imagePaths_flushTableOut (out : List Block) (t : List RowData) :
    imagePaths (flushTableOut out t) = imagePaths out := by
  rw [flushTableOut]
  split
  · rfl
  · split
    · rw [imagePaths_append]
      simp [imagePaths]
    · rfl

/-- A flushed paragraph changes no image tag. -/
theorem imagePaths_flushParaOut (out : List Block) (l : List String) :
    imagePaths (flushParaOut out l) = imagePaths out := by
  rw [flushParaOut]
  split
  · rfl
  · dsimp only
    split
    · rfl
    · rw [imagePaths_append]
      simp [imagePaths]

/-- A title/section/footer block changes no image tag. -/
theorem imagePaths_appendCellBlock (out : List Block) (r : RowData)
    (mk : String → Block) (h : ∀ t, imagePaths [mk t] = []) :
    imagePaths (appendCellBlock out r mk) = imagePaths out := by
  rw [appendCellBlock]
  split
  · rw [imagePaths_append, h, List.append_nil]
  · rfl

/-- Specialisation of `imagePaths_appendCellBlock` to the title block. -/
theorem imagePaths_appendTitle (out : List Block) (r : RowData) :
    imagePaths (appendCellBlock out r Block.titleB) = imagePaths out :=
  imagePaths_appendCellBlock out r Block.titleB fun _ => rfl

/-- Specialisation of `imagePaths_appendCellBlock` to the section block. -/
theorem imagePaths_appendSection (out : List Block) (r : RowData) :
    imagePaths (appendCellBlock out r Block.sectionB) = imagePaths out :=
  imagePaths_appendCellBlock out r Block.sectionB fun _ => rfl

/-- Specialisation of `imagePaths_appendCellBlock` to the footer block. -/
theorem imagePaths_appendFooter (out : List Block) (r : RowData) :
    imagePaths (appendCellBlock out r Block.footerB) = imagePaths out :=
  imagePaths_appendCellBlock out r Block.footerB fun _ => rfl

/-- One image tag holds one path. -/
theorem imagePaths_singleton (p : String) :
    imagePaths [Block.imageB p] = [p] := rfl

/-- What one loop iteration does to the image tags and the used set: a
title row places only the pre-selected title image; any other row places
exactly the image `_add_image_tag` returned; the used set always becomes
the one `_add_image_tag` left. -/
theorem step_images (ctx : Ctx) (imgs : List ImgInfo) (ti : Option String)
    (s : ConvState) (r : RowData) :
    (classifyRow ctx r s.last = Tag.title →
      imagePaths (step ctx imgs ti s r).out =
        imagePaths s.out ++
          (match ti with | some tp => [tp] | none => [])) ∧
    (classifyRow ctx r s.last ≠ Tag.title →
      imagePaths (step ctx imgs ti s r).out =
        imagePaths s.out ++
          (match (addImage imgs s.used r.rowIdx).1 with
            | some p => [p]
            | none => [])) ∧
    (step ctx imgs ti s r).used = (addImage imgs s.used r.rowIdx).2 := by
  rcases hcc : classifyRow ctx r s.last with _ | _ | _ | _ | _ | _ <;>
    simp only [hcc, ne_eq, reduceCtorEq, not_false_eq_true, not_true_eq_false,
      true_implies, false_implies, true_and, IsEmpty.forall_iff] <;>
    simp only [step, hcc] <;>
    (rcases him : (addImage imgs s.used r.rowIdx).1 with _ | ip <;>
      by_cases hl : s.last = some Tag.tableRow <;>
      by_cases hp : s.last = some Tag.paragraphLine <;>
      rcases ti with _ | tp <;>
      simp [him, hl, hp, imagePaths_flushTableOut, imagePaths_flushParaOut,
        imagePaths_appendTitle, imagePaths_appendSection,
        imagePaths_appendFooter, imagePaths_append, imagePaths_singleton])

/-- A found image was unused, and marking adds it to the used set. -/
theorem addImage_some {imgs : List ImgInfo} {used : List String} {k : Nat}
    {p : String} {u : List String}
    (h : addImage imgs used k = (some p, u)) :
    p ∉ used ∧ u = p :: used := by
  induction imgs with
  | nil => cases h
  | cons i rest ih =>
    rw [addImage] at h
    split at h
    · rename_i hcond
      injection h with h1 h2
      injection h1 with h1
      subst h1
      subst h2
      exact ⟨hcond.2, rfl⟩
    · exact ih h

/-- When no image is found the used set is unchanged. -/
theorem addImage_none {imgs : List ImgInfo} {used : List String} {k : Nat}
    {u : List String} (h : addImage imgs used k = (none, u)) : u = used := by
  induction imgs with
  | nil => cases h; rfl
  | cons i rest ih =>
    rw [addImage] at h
    split at h
    · cases h
    · exact ih h

/-- The used set only grows. -/
theorem addImage_mono {imgs : List ImgInfo} {used : List String} {k : Nat}
    {q : String} (hq : q ∈ used) :
    q ∈ (addImage imgs used k).2 := by
  rcases h : addImage imgs used k with ⟨io, u⟩
  rcases io with _ | p
  · rw [addImage_none h]
    exact hq
  · rw [(addImage_some h).2]
    exact List.mem_cons_of_mem _ hq

/-- A `title` classification needs `prev_classification is None`. -/
theorem classify_title_prev_none {ctx : Ctx} {r : RowData}
    {prevC : Option Tag} (h : classifyRow ctx r prevC = Tag.title) :
    prevC = none := by
  rw [classifyRow] at h
  by_cases he : rowIsEmpty r true = true
  · simp [he] at h
  · rw [if_neg (by simpa using he)] at h
    rcases hne : nonEmptyCells r true with _ | ⟨fc, rest⟩
    · rw [hne] at h
      cases h
    · rw [hne] at h
      dsimp only at h
      by_cases hb : (decide (r.rowIdx ≤ 3) && decide (prevC = none) &&
          isLikeTitle r (cellText fc)) = true
      · rw [Bool.and_eq_true, Bool.and_eq_true] at hb
        exact of_decide_eq_true hb.1.2
      · rw [if_neg (by simpa using hb)] at h
        split at h
        · simp_all
        · split at h
          · simp_all
          · split at h
            · split at h <;> simp_all
            · simp_all

/-- One loop iteration preserves the image-placement invariant. -/
theorem imgInv_step (ctx : Ctx) (imgs : List ImgInfo) (ti : Option String)
    (s : ConvState) (r : RowData) (hI : ImgInv ti s) :
    ImgInv ti (step ctx imgs ti s r) := by
  obtain ⟨n1, n2, n3, n4⟩ := hI
  obtain ⟨hT, hNT, hU⟩ := step_images ctx imgs ti s r
  have hlast := step_last_eq ctx imgs ti s r
  have hlastne : s.last ≠ none → (step ctx imgs ti s r).last ≠ none := by
    intro hs
    rw [hlast]
    split
    · exact hs
    · simp
  by_cases hc : classifyRow ctx r s.last = Tag.title
  · have hpn : s.last = none := classify_title_prev_none hc
    have hout := hT hc
    rcases ti with _ | tp
    · simp only [] at hout
      refine ⟨?_, ?_, ?_, ?_⟩
      · rw [hout]
        simpa using n1
      · intro p hp
        rw [hout] at hp
        simp only [List.append_nil] at hp
        rw [hU]
        exact addImage_mono (n2 p hp)
      · intro tp htp
        cases htp
      · intro tp htp
        cases htp
    · have htpu : tp ∈ s.used := n3 tp rfl
      have htpo : tp ∉ imagePaths s.out := fun hmem => (n4 tp rfl hmem) hpn
      refine ⟨?_, ?_, ?_, ?_⟩
      · rw [hout]
        simp [List.nodup_append, n1, htpo]
      · intro p hp
        rw [hout] at hp
        rcases List.mem_append.1 hp with hmem | hmem
        · rw [hU]
          exact addImage_mono (n2 p hmem)
        · rw [hU]
          have : p = tp := by simpa using hmem
          subst this
          exact addImage_mono htpu
      · intro tp' htp'
        injection htp' with e
        subst e
        rw [hU]
        exact addImage_mono htpu
      · intro tp' htp' hmem
        rw [hlast, if_neg (by rw [hc]; simp), hc]
        simp
  · have hout := hNT hc
    rcases him : (addImage imgs s.used r.rowIdx).1 with _ | p
    · rw [him] at hout
      simp only [List.append_nil] at hout
      refine ⟨?_, ?_, ?_, ?_⟩
      · rw [hout]
        exact n1
      · intro p hp
        rw [hout] at hp
        rw [hU]
        exact addImage_mono (n2 p hp)
      · intro tp htp
        rw [hU]
        exact addImage_mono (n3 tp htp)
      · intro tp htp hmem
        rw [hout] at hmem
        exact hlastne (n4 tp htp hmem)
    · have hpair : addImage imgs s.used r.rowIdx =
          (some p, (addImage imgs s.used r.rowIdx).2) := by
        rw [← him]
      obtain ⟨hpu, hueq⟩ := addImage_some hpair
      rw [him] at hout
      have hpo : p ∉ imagePaths s.out := fun hmem => hpu (n2 p hmem)
      refine ⟨?_, ?_, ?_, ?_⟩
      · rw [hout]
        simp [List.nodup_append, n1, hpo]
      · intro q hq
        rw [hout] at hq
        rw [hU, hueq]
        rcases List.mem_append.1 hq with hmem | hmem
        · exact List.mem_cons_of_mem _ (n2 q hmem)
        · have : q = p := by simpa using hmem
          subst this
          exact List.mem_cons_self _ _
      · intro tp htp
        rw [hU, hueq]
        exact List.mem_cons_of_mem _ (n3 tp htp)
      · intro tp htp hmem
        rw [hout] at hmem
        rcases List.mem_append.1 hmem with hmem' | hmem'
        · exact hlastne (n4 tp htp hmem')
        · exfalso
          have : tp = p := by simpa using hmem'
          subst this
          exact hpu (n3 tp htp)

/-- The whole loop preserves the image-placement invariant. -/
theorem imgInv_fold (ctx : Ctx) (imgs : List ImgInfo) (ti : Option String)
    (rows : List RowData) (s : ConvState) (hI : ImgInv ti s) :
    ImgInv ti (rows.foldl (step ctx imgs ti) s) := by
  induction rows generalizing s with
  | nil => exact hI
  | cons r rest ih =>
    rw [List.foldl_cons]
    exact ih _ (imgInv_step ctx imgs ti s r hI)

/-- The title image the pre-pass selects is marked used by the pre-pass
itself. -/
theorem findTitleImgAux_some_mem (imgs : List ImgInfo)
    (rows : List RowData) (used : List String) (p : String)
    (h : (findTitleImgAux imgs rows used).1 = some p) :
    p ∈ (findTitleImgAux imgs rows used).2 := by
  induction rows generalizing used with
  | nil => cases h
  | cons r rest ih =>
    rw [findTitleImgAux] at h ⊢
    rcases hia : addImage imgs used r.rowIdx with ⟨io, u⟩
    rcases io with _ | q
    · rw [hia] at h
      dsimp only at h ⊢
      exact ih _ h
    · rw [hia] at h
      dsimp only at h ⊢
      injection h with h
      subst h
      rw [(addImage_some hia).2]
      exact List.mem_cons_self _ _

/-- C9.  Each image asset path is placed into the rendered document at most
once per run: over any sheet, the image paths of the emitted image tags are
pairwise distinct — whether several rows map to the same asset or the asset
was pre-selected as the title image, the used-set prevents a second tag. -/
theorem convert_image_paths_nodup (sd : SheetData) :
    (imagePaths (convertModel sd).out).Nodup := by
  have hinit : ImgInv (titleImgOf sd) (initState sd) := by
    refine ⟨by simp [initState, imagePaths], ?_, ?_, ?_⟩
    · intro p hp
      simp [initState, imagePaths] at hp
    · intro tp htp
      rw [initState]
      exact findTitleImgAux_some_mem sd.images (sd.rows.take 5) [] tp htp
    · intro tp htp hmem
      simp [initState, imagePaths] at hmem
  have hfin := imgInv_fold (ctxOf sd) sd.images (titleImgOf sd) sd.rows
    (initState sd) hinit
  have hout : imagePaths (convertModel sd).out =
      imagePaths
        (sd.rows.foldl (step (ctxOf sd) sd.images (titleImgOf sd))
          (initState sd)).out := by
    rw [convertModel]
    rw [imagePaths_flushParaOut, imagePaths_flushTableOut]
  rw [hout]
  exact hfin.1
